import Mathlib

/-!
Verification of `pyro/distributions/projected_normal.py`.

The source operates on torch tensors; we embed a single event vector as a
`List ℝ` (the trailing/event axis) and machine floats as real numbers, keeping
the source's evaluation structure.  The dtype-dependent constant
`torch.finfo(dtype).tiny` (smallest positive normal number) is a parameter
`tiny` of the projection; the float32 value `2 ^ (-126)` is used for concrete
counterexamples.  The error function `erf` of torch is an uninterpreted
function parameter, since both the code and the spec invoke the same
primitive.
-/

open scoped Classical

noncomputable section

/-- Euclidean norm along the event axis, `torch.linalg.norm(x, dim=-1)`:
the square root of the sum of squared coordinates. -/
def l2norm (x : List ℝ) : ℝ :=
  Real.sqrt ((x.map (fun a => a ^ 2)).sum)

/-- Embedding of `safe_project` from projected_normal.py.  The source computes
`norm = ‖x‖₂`, rebinds `x` to `x / norm.clamp(min=tiny)` (a freshly allocated
quotient tensor), and then overwrites coordinate 0 with 1 on those batch
elements of the quotient that are entirely zero
(`x.data[..., 0][x.data.eq(0).all(dim=-1)] = 1`).  `clamp(min=tiny)` is
`max · tiny`. -/
def safe_project (tiny : ℝ) (x : List ℝ) : List ℝ :=
  let y := x.map (fun a => a / max (l2norm x) tiny)
  if ∀ a ∈ y, a = 0 then y.set 0 1 else y

/-- Embedding of the helper `_dot`: the batched matrix product
`(x[..., None, :] @ y[..., None])[..., 0, 0]`, i.e. the dot product of the two
event vectors. -/
def _dot (x y : List ℝ) : ℝ :=
  (List.zipWith (fun a b => a * b) x y).sum

/-- Embedding of `_log_prob_2(concentration, value)` registered for `dim=2`.
Python `** 0.5` on a nonnegative float is the square root; `t.square()` is
`t ^ 2`; `.mul`, `.exp`, `.log`, `.erf` read in application order. -/
def _log_prob_2 (erf : ℝ → ℝ) (concentration value : List ℝ) : ℝ :=
  Real.log ((Real.exp (_dot concentration value ^ 2 * (-0.5)) * Real.sqrt (2 / Real.pi)
        + _dot concentration value
          * (1 + erf (_dot concentration value * Real.sqrt 0.5))) * 0.5)
    + ((_dot concentration concentration - _dot concentration value ^ 2) * (-0.5)
        - 0.5 * Real.log (2 * Real.pi))

/-- Embedding of `_log_prob_3(concentration, value)` registered for `dim=3`. -/
def _log_prob_3 (erf : ℝ → ℝ) (concentration value : List ℝ) : ℝ :=
  Real.log (_dot concentration value * Real.exp (_dot concentration value ^ 2 * (-0.5))
        / Real.sqrt (2 * Real.pi)
        + (1 + _dot concentration value ^ 2)
          * (1 + erf (_dot concentration value * Real.sqrt 0.5)) / 2)
    + ((_dot concentration concentration - _dot concentration value ^ 2) * (-0.5)
        - Real.log (2 * Real.pi))

/-- The closed form of spec section 4.2.1, written from the spec text: with
`t = concentration · value`, `t2 = t²`, `r2 = ‖concentration‖² − t2`,
`para_part = ln(0.5·(sqrt(2/π)·exp(−t2/2) + t·(1 + erf(t/√2))))` and
`perp_part = −r2/2 − 0.5·ln(2π)`, the result is `para_part + perp_part`. -/
def spec_log_prob_2 (erf : ℝ → ℝ) (concentration value : List ℝ) : ℝ :=
  Real.log (0.5 * (Real.sqrt (2 / Real.pi) * Real.exp (-(_dot concentration value ^ 2) / 2)
        + _dot concentration value
          * (1 + erf (_dot concentration value / Real.sqrt 2))))
    + (-(l2norm concentration ^ 2 - _dot concentration value ^ 2) / 2
        - 0.5 * Real.log (2 * Real.pi))

/-- The closed form of spec section 4.2.2, written from the spec text: with
the same `t`, `t2`, `r2`,
`para_part = ln(t·exp(−t2/2)/sqrt(2π) + (1+t2)·(1+erf(t/√2))/2)` and
`perp_part = −r2/2 − ln(2π)`. -/
def spec_log_prob_3 (erf : ℝ → ℝ) (concentration value : List ℝ) : ℝ :=
  Real.log (_dot concentration value * Real.exp (-(_dot concentration value ^ 2) / 2)
        / Real.sqrt (2 * Real.pi)
        + (1 + _dot concentration value ^ 2)
          * (1 + erf (_dot concentration value / Real.sqrt 2)) / 2)
    + (-(l2norm concentration ^ 2 - _dot concentration value ^ 2) / 2
        - Real.log (2 * Real.pi))

/-! Helper lemmas about the norm and the projection. -/

lemma sum_map_sq_nonneg (l : List ℝ) : 0 ≤ (l.map (fun a => a ^ 2)).sum :=
  List.sum_nonneg (by
    intro a ha
    obtain ⟨b, _, rfl⟩ := List.mem_map.1 ha
    positivity)

lemma l2norm_nonneg (l : List ℝ) : 0 ≤ l2norm l :=
  Real.sqrt_nonneg _

lemma l2norm_sq (l : List ℝ) : l2norm l ^ 2 = (l.map (fun a => a ^ 2)).sum :=
  Real.sq_sqrt (sum_map_sq_nonneg l)

lemma zipWith_mul_self (l : List ℝ) :
    List.zipWith (fun a b => a * b) l l = l.map (fun a => a ^ 2) := by
  induction l with
  | nil => rfl
  | cons a t ih => simp [ih, pow_two]

lemma dot_self_eq_l2norm_sq (c : List ℝ) : _dot c c = l2norm c ^ 2 := by
  rw [_dot, zipWith_mul_self, l2norm_sq]

lemma sum_map_sq_eq_zero_iff (l : List ℝ) :
    (l.map (fun a => a ^ 2)).sum = 0 ↔ ∀ a ∈ l, a = 0 := by
  induction l with
  | nil => simp
  | cons a t ih =>
    simp only [List.map_cons, List.sum_cons, List.mem_cons]
    rw [add_eq_zero_iff_of_nonneg (by positivity) (sum_map_sq_nonneg t)]
    constructor
    · rintro ⟨h1, h2⟩ b hb
      rcases hb with rfl | hb
      · exact pow_eq_zero_iff two_ne_zero |>.1 h1
      · exact ih.1 h2 b hb
    · intro h
      refine ⟨?_, ih.2 fun b hb => h b (Or.inr hb)⟩
      rw [h a (Or.inl rfl)]
      ring

lemma l2norm_eq_zero_iff (l : List ℝ) : l2norm l = 0 ↔ ∀ a ∈ l, a = 0 := by
  rw [l2norm, Real.sqrt_eq_zero (sum_map_sq_nonneg l), sum_map_sq_eq_zero_iff]

lemma l2norm_pos_of_ne_zero (l : List ℝ) (h : ¬ ∀ a ∈ l, a = 0) : 0 < l2norm l :=
  lt_of_le_of_ne (l2norm_nonneg l) (fun h0 => h ((l2norm_eq_zero_iff l).1 h0.symm))

/-- On an all-zero input the projection takes the override branch and returns
the canonical unit vector `[1, 0, ..., 0]`. -/
lemma safe_project_of_all_zero (tiny : ℝ) (x : List ℝ) (hx : 1 ≤ x.length)
    (hz : ∀ a ∈ x, a = 0) :
    safe_project tiny x = 1 :: List.replicate (x.length - 1) 0 := by
  unfold safe_project
  have hy : ∀ a ∈ x.map (fun a => a / max (l2norm x) tiny), a = 0 := by
    intro a ha
    obtain ⟨b, hb, rfl⟩ := List.mem_map.1 ha
    rw [hz b hb, zero_div]
  rw [if_pos hy]
  obtain ⟨b, t, hbt⟩ := List.exists_cons_of_ne_nil
    (l := x.map (fun a => a / max (l2norm x) tiny))
    (by
      apply List.length_pos.mp
      rw [List.length_map]
      omega)
  rw [hbt]
  have ht : t = List.replicate (x.length - 1) 0 := by
    refine List.eq_replicate_iff.2 ⟨?_, ?_⟩
    · have := congrArg List.length hbt
      simp at this
      omega
    · intro a ha
      exact hy a (hbt ▸ List.mem_cons_of_mem b ha)
  rw [List.set_cons_zero, ht]

/-- On an input that is not all zero the projection returns the clamped
quotient unchanged. -/
lemma safe_project_of_not_zero (tiny : ℝ) (x : List ℝ) (ht : 0 < tiny)
    (hnz : ¬ ∀ a ∈ x, a = 0) :
    safe_project tiny x = x.map (fun a => a / max (l2norm x) tiny) := by
  unfold safe_project
  rw [if_neg]
  intro hy
  apply hnz
  intro a ha
  have hd : max (l2norm x) tiny ≠ 0 :=
    ne_of_gt (lt_of_lt_of_le ht (le_max_right _ _))
  have := hy (a / max (l2norm x) tiny) (List.mem_map.2 ⟨a, ha, rfl⟩)
  rcases div_eq_zero_iff.1 this with h | h
  · exact h
  · exact absurd h hd

/-- When the norm is at least `tiny` the clamp is inactive and the projection
divides by the exact norm. -/
lemma safe_project_of_norm_ge (tiny : ℝ) (x : List ℝ) (ht : 0 < tiny)
    (h : tiny ≤ l2norm x) :
    safe_project tiny x = x.map (fun a => a / l2norm x) := by
  have hnz : ¬ ∀ a ∈ x, a = 0 := by
    intro hz
    have h0 : l2norm x = 0 := (l2norm_eq_zero_iff x).2 hz
    rw [h0] at h
    exact absurd (lt_of_lt_of_le ht h) (lt_irrefl 0)
  rw [safe_project_of_not_zero tiny x ht hnz, max_eq_left h]

lemma l2norm_map_div (x : List ℝ) (n : ℝ) (hn : 0 < n) :
    l2norm (x.map (fun a => a / n)) = l2norm x / n := by
  unfold l2norm
  rw [List.map_map]
  have harg : ((x.map (fun a => a ^ 2)).sum) / n ^ 2
      = (x.map ((fun a => a ^ 2) ∘ fun a => a / n)).sum := by
    induction x with
    | nil => simp
    | cons a t ih =>
      simp only [List.map_cons, List.sum_cons, Function.comp] at *
      rw [← ih]
      field_simp
  rw [← harg, Real.sqrt_div (sum_map_sq_nonneg x), Real.sqrt_sq hn.le]

lemma l2norm_map_mul (c : ℝ) (x : List ℝ) (hc : 0 ≤ c) :
    l2norm (x.map (fun a => c * a)) = c * l2norm x := by
  unfold l2norm
  rw [List.map_map]
  have harg : (x.map ((fun a => a ^ 2) ∘ fun a => c * a)).sum
      = c ^ 2 * (x.map (fun a => a ^ 2)).sum := by
    induction x with
    | nil => simp
    | cons a t ih =>
      simp only [List.map_cons, List.sum_cons, Function.comp] at *
      rw [ih]
      ring
  rw [harg, Real.sqrt_mul (by positivity), Real.sqrt_sq hc]

lemma l2norm_one_cons_replicate (n : ℕ) :
    l2norm (1 :: List.replicate n (0 : ℝ)) = 1 := by
  unfold l2norm
  simp [List.map_replicate]

lemma l2norm_pair (a : ℝ) (ha : 0 ≤ a) : l2norm [a, 0] = a := by
  unfold l2norm
  simp
  rw [Real.sqrt_sq ha]

/-! Model of the distribution object and its `log_prob` dispatch.

`ProjectedNormal.log_prob`, `expand` and the registration decorator live in
src/pyro/distributions/projected_normal.py.  The surrounding distribution
base class (`torch_distribution.py`, absent from src/) supplies the
validation-flag plumbing and the support check; those two pieces are
modelled from the spec below. -/

/-- A tensor seen by `log_prob`: its event-axis data together with the
gradient-tracking flag `requires_grad` of the surrounding framework. -/
structure Tensor1 where
  data : List ℝ
  requiresGrad : Bool

/-- The errors `log_prob` can raise: the shape-mismatch `ValueError`, the
support-violation error of `_validate_sample`, and `NotImplementedError`,
whose message carries the reparametrization advice exactly when
`adviseReparam` is true. -/
inductive DistError where
  | shapeMismatch : DistError
  | supportViolation : DistError
  | notImplemented (adviseReparam : Bool) : DistError
deriving DecidableEq

/-- A `ProjectedNormal` instance: the concentration vector (event axis only;
`event_shape = concentration.shape[-1:]`), the batch shape, and the
instance-level `_validate_args` attribute.  `validateAttr = none` means the
attribute is absent from the instance dictionary; `some o` means it holds the
Python value `o` (`none` for Python `None`). -/
structure ProjectedNormal where
  concentration : List ℝ
  batchShape : List ℕ
  validateAttr : Option (Option Bool)

/-- Modelled from the spec: construction stores the optional validation flag.
The base class (absent from src/) records `validate_args` on the instance
only when it was explicitly given; otherwise the class-level default stays in
effect. -/
def ProjectedNormal.construct (concentration : List ℝ) (validate_args : Option Bool) :
    ProjectedNormal :=
  { concentration := concentration
    batchShape := []
    validateAttr := validate_args.map some }

/-- Modelled from the spec: the resolved validation setting consulted by
`if self._validate_args:`.  An absent instance attribute falls back to the
class-level default; a present attribute is used by Python truthiness, so a
stored `None` counts as disabled. -/
def ProjectedNormal.validationEnabled (d : ProjectedNormal) (classDefault : Bool) : Bool :=
  match d.validateAttr with
  | none => classDefault
  | some o => o.getD false

/-- Embedding of `ProjectedNormal.expand`: the new instance broadcasts the
concentration over the new batch shape, is initialized with
`validate_args=False` (storing `False` on the instance), and then
`new._validate_args = self.__dict__.get('_validate_args')` overwrites that
with the parent's stored attribute, or with Python `None` when the parent has
none. -/
def ProjectedNormal.expand (d : ProjectedNormal) (newBatchShape : List ℕ) : ProjectedNormal :=
  { concentration := d.concentration
    batchShape := newBatchShape
    validateAttr := some (d.validateAttr.getD none) }

/-- The class-level registry `_log_prob_impls`, as populated by the two
`@ProjectedNormal._register_log_prob` decorators in the source: dimension 2
maps to `_log_prob_2`, dimension 3 to `_log_prob_3`, every other dimension is
unregistered. -/
def logProbImpls (erf : ℝ → ℝ) : ℕ → Option (List ℝ → List ℝ → ℝ)
  | 2 => some (_log_prob_2 erf)
  | 3 => some (_log_prob_3 erf)
  | _ => none

/-- The dispatch tail of `log_prob`: `dim = concentration.size(-1)` is looked
up in `_log_prob_impls`; a `KeyError` becomes `NotImplementedError` whose
message carries the reparametrization advice iff `value.requires_grad`;
otherwise the registered implementation is applied. -/
def ProjectedNormal.dispatch (erf : ℝ → ℝ) (d : ProjectedNormal) (value : Tensor1) :
    Except DistError ℝ :=
  match logProbImpls erf d.concentration.length with
  | none => Except.error (DistError.notImplemented value.requiresGrad)
  | some f => Except.ok (f d.concentration value.data)

/-- Embedding of `ProjectedNormal.log_prob`.  Under `if self._validate_args:`
the trailing shape of the value is compared with the event shape (shape
mismatch raises `ValueError`), then `_validate_sample` checks the support.
The support check itself lives in the base class absent from src/ and is
modelled from the spec as an abstract decision `inSphere` for membership in
the unit sphere; only then does the dimension dispatch run. -/
def ProjectedNormal.log_prob (erf : ℝ → ℝ) (inSphere : List ℝ → Bool) (classDefault : Bool)
    (d : ProjectedNormal) (value : Tensor1) : Except DistError ℝ :=
  if d.validationEnabled classDefault then
    if value.data.length = d.concentration.length then
      if inSphere value.data then d.dispatch erf value
      else Except.error DistError.supportViolation
    else Except.error DistError.shapeMismatch
  else d.dispatch erf value

/-- Heap-passing model of one `safe_project` call, for the frame property.
Tensors live in a heap addressed by position; the caller's argument is the
tensor at `inRef`.  The division `x / norm.clamp(min=tiny)` allocates a fresh
tensor at `qRef = heap.length` (the Python local `x` is rebound to it), and
the in-place write `x.data[..., 0][...] = 1` goes through `qRef`, never
through `inRef`.  Returns the final heap and the reference handed back to the
caller. -/
def safeProjectHeap (tiny : ℝ) (heap : List (List ℝ)) (inRef : ℕ) :
    List (List ℝ) × ℕ :=
  let x := heap.getD inRef []
  let qRef := heap.length
  let q := x.map (fun a => a / max (l2norm x) tiny)
  let heap1 := heap ++ [q]
  let q2 := if ∀ a ∈ q, a = 0 then q.set 0 1 else q
  (heap1.set qRef q2, qRef)

/-! Dispatch helper lemmas. -/

lemma dispatch_of_none (erf : ℝ → ℝ) (d : ProjectedNormal) (value : Tensor1)
    (h : logProbImpls erf d.concentration.length = none) :
    d.dispatch erf value = Except.error (DistError.notImplemented value.requiresGrad) := by
  unfold ProjectedNormal.dispatch
  rw [h]

lemma dispatch_of_some (erf : ℝ → ℝ) (d : ProjectedNormal) (value : Tensor1)
    (f : List ℝ → List ℝ → ℝ) (h : logProbImpls erf d.concentration.length = some f) :
    d.dispatch erf value = Except.ok (f d.concentration value.data) := by
  unfold ProjectedNormal.dispatch
  rw [h]

lemma dispatch_ne_shapeMismatch (erf : ℝ → ℝ) (d : ProjectedNormal) (value : Tensor1) :
    d.dispatch erf value ≠ Except.error DistError.shapeMismatch := by
  unfold ProjectedNormal.dispatch
  cases hl : logProbImpls erf d.concentration.length with
  | none => simp
  | some f => simp

/-! Theorems for the claims. -/

/-- C1: for event dimension 2, the registered log-probability implementation
equals the closed form of spec section 4.2.1: with `t = concentration · value`,
`t2 = t²`, `r2 = ‖concentration‖² − t2`, the result is
`ln(0.5·(sqrt(2/π)·exp(−t2/2) + t·(1 + erf(t/√2)))) + (−r2/2 − 0.5·ln(2π))`,
for every concentration and value of trailing dimension 2. -/
theorem log_prob2_matches_spec (erf : ℝ → ℝ) (c v : List ℝ)
    (hc : c.length = 2) (hv : v.length = 2) :
    _log_prob_2 erf c v = spec_log_prob_2 erf c v := by
  unfold _log_prob_2 spec_log_prob_2
  rw [dot_self_eq_l2norm_sq]
  have h05 : Real.sqrt 0.5 = (Real.sqrt 2)⁻¹ := by
    rw [show (0.5 : ℝ) = 2⁻¹ by norm_num, Real.sqrt_inv]
  rw [h05]
  have hdiv : _dot c v * (Real.sqrt 2)⁻¹ = _dot c v / Real.sqrt 2 :=
    (div_eq_mul_inv _ _).symm
  rw [hdiv]
  have hexp : _dot c v ^ 2 * (-0.5) = -(_dot c v ^ 2) / 2 := by ring
  rw [hexp]
  congr 1
  · congr 1
    ring
  · ring

/-- Witness for C1 at concentration `[1, 0]` and value `[0, 1]`. -/
theorem log_prob2_matches_spec_witness :
    ([1, 0] : List ℝ).length = 2 ∧ ([0, 1] : List ℝ).length = 2
    ∧ _log_prob_2 (fun _ => 0) [1, 0] [0, 1] = spec_log_prob_2 (fun _ => 0) [1, 0] [0, 1] :=
  ⟨rfl, rfl, log_prob2_matches_spec (fun _ => 0) [1, 0] [0, 1] rfl rfl⟩

/-- C2: for event dimension 3, the registered log-probability implementation
equals the closed form of spec section 4.2.2: with the same `t`, `t2`, `r2`,
the result is
`ln(t·exp(−t2/2)/sqrt(2π) + (1+t2)·(1+erf(t/√2))/2) + (−r2/2 − ln(2π))`,
for every concentration and value of trailing dimension 3. -/
theorem log_prob3_matches_spec (erf : ℝ → ℝ) (c v : List ℝ)
    (hc : c.length = 3) (hv : v.length = 3) :
    _log_prob_3 erf c v = spec_log_prob_3 erf c v := by
  unfold _log_prob_3 spec_log_prob_3
  rw [dot_self_eq_l2norm_sq]
  have h05 : Real.sqrt 0.5 = (Real.sqrt 2)⁻¹ := by
    rw [show (0.5 : ℝ) = 2⁻¹ by norm_num, Real.sqrt_inv]
  rw [h05]
  have hdiv : _dot c v * (Real.sqrt 2)⁻¹ = _dot c v / Real.sqrt 2 :=
    (div_eq_mul_inv _ _).symm
  rw [hdiv]
  have hexp : _dot c v ^ 2 * (-0.5) = -(_dot c v ^ 2) / 2 := by ring
  rw [hexp]
  congr 1
  · ring

/-- Witness for C2 at concentration `[1, 0, 0]` and value `[0, 0, 1]`. -/
theorem log_prob3_matches_spec_witness :
    ([1, 0, 0] : List ℝ).length = 3 ∧ ([0, 0, 1] : List ℝ).length = 3
    ∧ _log_prob_3 (fun _ => 0) [1, 0, 0] [0, 0, 1]
        = spec_log_prob_3 (fun _ => 0) [1, 0, 0] [0, 0, 1] :=
  ⟨rfl, rfl, log_prob3_matches_spec (fun _ => 0) [1, 0, 0] [0, 0, 1] rfl rfl⟩

/-- Concrete evaluation used by the counterexamples: at float32 precision
(`tiny = 2 ^ (-126)`) the subnormal input `[2 ^ (-127), 0]` is divided by the
clamp value `tiny` rather than by its own norm, giving `[2 ^ (-1), 0]`. -/
lemma safe_project_f32_subnormal :
    safe_project ((2 : ℝ) ^ (-(126 : ℤ))) [(2 : ℝ) ^ (-(127 : ℤ)), 0]
      = [(2 : ℝ) ^ (-(1 : ℤ)), 0] := by
  have h127 : (0 : ℝ) < 2 ^ (-(127 : ℤ)) := zpow_pos (by norm_num) _
  have h126 : (0 : ℝ) < 2 ^ (-(126 : ℤ)) := zpow_pos (by norm_num) _
  have hn : l2norm [(2 : ℝ) ^ (-(127 : ℤ)), 0] = 2 ^ (-(127 : ℤ)) :=
    l2norm_pair _ h127.le
  have hle : (2 : ℝ) ^ (-(127 : ℤ)) ≤ 2 ^ (-(126 : ℤ)) :=
    zpow_le_zpow_right₀ (by norm_num) (by norm_num)
  have hnz : ¬ ∀ a ∈ [(2 : ℝ) ^ (-(127 : ℤ)), 0], a = 0 := by
    intro h
    exact absurd (h _ (List.mem_cons_self _ _)) (ne_of_gt h127)
  rw [safe_project_of_not_zero _ _ h126 hnz, hn, max_eq_right hle]
  simp only [List.map_cons, List.map_nil, zero_div]
  congr 1
  rw [← zpow_sub₀ (by norm_num : (2 : ℝ) ≠ 0)]
  norm_num

/-- Counterexample to C3 as stated: the finite nonzero input
`[2 ^ (-127), 0]` (a subnormal norm, below float32 `tiny = 2 ^ (-126)`) is
divided by the clamp value, and the output of `safe_project` has Euclidean
norm `1/2`, not `1`. -/
theorem safe_project_subnormal_cex :
    l2norm (safe_project ((2 : ℝ) ^ (-(126 : ℤ))) [(2 : ℝ) ^ (-(127 : ℤ)), 0]) ≠ 1 := by
  rw [safe_project_f32_subnormal,
    l2norm_pair _ (zpow_pos (by norm_num) _).le]
  intro h
  rw [zpow_neg, zpow_one] at h
  norm_num at h

/-- C3 amended: `safe_project` is total, and returns a unit vector for every
finite input that is either the all-zero vector or has norm at least `tiny`;
inputs with `0 < ‖x‖ < tiny` are the only exception (they are divided by the
clamp value `tiny` and keep norm `‖x‖ / tiny < 1`). -/
theorem safe_project_unit_norm_amended (tiny : ℝ) (x : List ℝ)
    (ht : 0 < tiny) (hx : 1 ≤ x.length)
    (h : (∀ a ∈ x, a = 0) ∨ tiny ≤ l2norm x) :
    l2norm (safe_project tiny x) = 1 := by
  rcases h with hz | hge
  · rw [safe_project_of_all_zero tiny x hx hz, l2norm_one_cons_replicate]
  · have hpos : 0 < l2norm x := lt_of_lt_of_le ht hge
    rw [safe_project_of_norm_ge tiny x ht hge, l2norm_map_div x _ hpos,
      div_self (ne_of_gt hpos)]

/-- Witness for the amended C3 at the all-zero input `[0, 0]` with `tiny = 1`. -/
theorem safe_project_unit_norm_amended_witness :
    (0 : ℝ) < 1 ∧ 1 ≤ ([0, 0] : List ℝ).length
    ∧ l2norm (safe_project 1 [0, 0]) = 1 :=
  ⟨by norm_num, by simp,
    safe_project_unit_norm_amended 1 [0, 0] (by norm_num) (by simp)
      (Or.inl (by
        intro a ha
        simp at ha
        exact ha))⟩

/-- C4: the zero-singularity override hits exactly the inputs whose original
vector is all-zero, where the result is exactly the canonical unit vector
`[1, 0, ..., 0]`; every other input maps to `x / max(‖x‖, tiny)`. -/
theorem safe_project_zero_override_exact (tiny : ℝ) (x : List ℝ)
    (ht : 0 < tiny) (hx : 1 ≤ x.length) :
    ((∀ a ∈ x, a = 0) → safe_project tiny x = 1 :: List.replicate (x.length - 1) 0)
    ∧ (¬ (∀ a ∈ x, a = 0) →
        safe_project tiny x = x.map (fun a => a / max (l2norm x) tiny)) :=
  ⟨safe_project_of_all_zero tiny x hx, safe_project_of_not_zero tiny x ht⟩

/-- Witness for C4 at the all-zero input `[0, 0]` with `tiny = 1`. -/
theorem safe_project_zero_override_exact_witness :
    (0 : ℝ) < 1 ∧ 1 ≤ ([0, 0] : List ℝ).length
    ∧ safe_project 1 [0, 0] = 1 :: List.replicate 1 0 :=
  ⟨by norm_num, by simp,
    (safe_project_zero_override_exact 1 [0, 0] (by norm_num) (by simp)).1 (by
      intro a ha
      simp at ha
      exact ha)⟩

/-- Counterexample to C8 as stated: take `x = [1, 0]` (nonzero, unit norm) and
the positive scalar `c = 2 ^ (-127)`.  At float32 `tiny = 2 ^ (-126)` the
scaled input falls below the clamp, so the projections differ:
`safe_project(c·x) = [1/2, 0]` while `safe_project(x) = [1, 0]`. -/
theorem safe_project_scale_cex :
    safe_project ((2 : ℝ) ^ (-(126 : ℤ)))
        (([1, 0] : List ℝ).map (fun a => (2 : ℝ) ^ (-(127 : ℤ)) * a))
      ≠ safe_project ((2 : ℝ) ^ (-(126 : ℤ))) [1, 0] := by
  have hmap : ([1, 0] : List ℝ).map (fun a => (2 : ℝ) ^ (-(127 : ℤ)) * a)
      = [(2 : ℝ) ^ (-(127 : ℤ)), 0] := by
    simp
  have h126 : (0 : ℝ) < 2 ^ (-(126 : ℤ)) := zpow_pos (by norm_num) _
  have hrhs : safe_project ((2 : ℝ) ^ (-(126 : ℤ))) [1, 0] = [1, 0] := by
    have h1 : l2norm [1, 0] = (1 : ℝ) := l2norm_pair 1 zero_le_one
    rw [safe_project_of_norm_ge _ _ h126
        (by
          rw [h1]
          exact zpow_le_one_of_nonpos₀ (by norm_num) (by norm_num)), h1]
    simp
  rw [hmap, safe_project_f32_subnormal, hrhs]
  intro h
  injection h with h1 _
  rw [zpow_neg, zpow_one] at h1
  norm_num at h1

/-- C8 amended: `safe_project` is scale invariant on every nonzero input whose
norm stays at or above `tiny` both before and after scaling; scalars small
enough to push the norm below the clamp break the invariance (see the
counterexample). -/
theorem safe_project_scale_invariant_amended (tiny c : ℝ) (x : List ℝ)
    (ht : 0 < tiny) (hc : 0 < c) (hx : tiny ≤ l2norm x)
    (hcx : tiny ≤ l2norm (x.map (fun a => c * a))) :
    safe_project tiny (x.map (fun a => c * a)) = safe_project tiny x := by
  rw [safe_project_of_norm_ge tiny _ ht hcx, safe_project_of_norm_ge tiny x ht hx,
    l2norm_map_mul c x hc.le, List.map_map]
  apply List.map_congr_left
  intro a _
  simp only [Function.comp]
  exact mul_div_mul_left a (l2norm x) (ne_of_gt hc)

/-- Witness for the amended C8 with `tiny = 1`, `c = 2`, `x = [1, 0]`. -/
theorem safe_project_scale_invariant_amended_witness :
    (0 : ℝ) < 1 ∧ (0 : ℝ) < 2 ∧ (1 : ℝ) ≤ l2norm [1, 0]
    ∧ (1 : ℝ) ≤ l2norm (([1, 0] : List ℝ).map (fun a => 2 * a))
    ∧ safe_project 1 (([1, 0] : List ℝ).map (fun a => 2 * a)) = safe_project 1 [1, 0] := by
  have h1 : l2norm [1, 0] = (1 : ℝ) := l2norm_pair 1 zero_le_one
  have hmap : ([1, 0] : List ℝ).map (fun a => 2 * a) = [2, 0] := by
    norm_num
  have h2 : (1 : ℝ) ≤ l2norm (([1, 0] : List ℝ).map (fun a => 2 * a)) := by
    rw [hmap, l2norm_pair 2 (by norm_num)]
    norm_num
  exact ⟨by norm_num, by norm_num, le_of_eq h1.symm, h2,
    safe_project_scale_invariant_amended 1 2 [1, 0] (by norm_num) (by norm_num)
      (le_of_eq h1.symm) h2⟩

/-- C5: `log_prob` raises the shape-mismatch error if and only if validation
is enabled and the trailing shape of the value differs from the declared
event shape; with validation disabled no shape check happens, so the error
can never arise. -/
theorem log_prob_shape_error_iff (erf : ℝ → ℝ) (inSphere : List ℝ → Bool)
    (classDefault : Bool) (d : ProjectedNormal) (value : Tensor1) :
    d.log_prob erf inSphere classDefault value = Except.error DistError.shapeMismatch
      ↔ d.validationEnabled classDefault = true
        ∧ value.data.length ≠ d.concentration.length := by
  unfold ProjectedNormal.log_prob
  have hdisp := dispatch_ne_shapeMismatch erf d value
  cases hv : d.validationEnabled classDefault with
  | false =>
    simp [hdisp]
  | true =>
    by_cases hlen : value.data.length = d.concentration.length
    · rw [if_pos rfl, if_pos hlen]
      by_cases hs : inSphere value.data
      · simp [hs, hdisp, hlen]
      · simp [hs, hlen]
    · rw [if_pos rfl, if_neg hlen]
      simp [hlen]

/-- C6: when no implementation is registered for the event dimension and the
validation stage does not itself reject the call, `log_prob` fails with the
unimplemented-dimension error, and the reparametrization advice appears in
the message exactly when the value requires gradient tracking. -/
theorem log_prob_unregistered_dim_error (erf : ℝ → ℝ) (inSphere : List ℝ → Bool)
    (classDefault : Bool) (d : ProjectedNormal) (value : Tensor1)
    (himpl : logProbImpls erf d.concentration.length = none)
    (hval : d.validationEnabled classDefault = false
        ∨ (value.data.length = d.concentration.length ∧ inSphere value.data = true)) :
    d.log_prob erf inSphere classDefault value
      = Except.error (DistError.notImplemented value.requiresGrad) := by
  unfold ProjectedNormal.log_prob
  rcases hval with hv | ⟨hlen, hs⟩
  · rw [if_neg (by simp [hv])]
    exact dispatch_of_none erf d value himpl
  · cases hv : d.validationEnabled classDefault with
    | false =>
      rw [if_neg (by simp)]
      exact dispatch_of_none erf d value himpl
    | true =>
      rw [if_pos rfl, if_pos hlen, if_pos (by simp [hs])]
      exact dispatch_of_none erf d value himpl

/-- Witness for C6: a dimension-4 concentration with a gradient-tracking
value and validation disabled. -/
theorem log_prob_unregistered_dim_error_witness :
    logProbImpls (fun _ => 0)
        (ProjectedNormal.construct [1, 0, 0, 0] none).concentration.length = none
    ∧ (ProjectedNormal.construct [1, 0, 0, 0] none).log_prob (fun _ => 0)
        (fun _ => true) false ⟨[1, 0, 0, 0], true⟩
      = Except.error (DistError.notImplemented true) :=
  ⟨rfl, log_prob_unregistered_dim_error (fun _ => 0) (fun _ => true) false
    (ProjectedNormal.construct [1, 0, 0, 0] none) ⟨[1, 0, 0, 0], true⟩ rfl (Or.inl rfl)⟩

/-- Counterexample to C7 as stated: a parent constructed with an explicit
`validate_args=True` yields an expanded copy on which validation is still
enabled (the claim says it should be disabled), even with the class default
disabled. -/
theorem expand_validation_cex :
    ((ProjectedNormal.construct [1, 0] (some true)).expand [5]).validationEnabled false
      = true := rfl

/-- C7 amended: `expand` always copies the parent's explicitly stored
validation flag into the new instance, overriding the `validate_args=False`
it was initialized with; the expanded copy therefore resolves its validation
setting exactly as the parent would with the class default disabled —
enabled iff the parent was constructed with an explicit `True`, and disabled
(regardless of the class default) whenever the parent relied on the
default. -/
theorem expand_validation_amended (d : ProjectedNormal) (bs : List ℕ) (cd : Bool) :
    (d.expand bs).validationEnabled cd = d.validationEnabled false := by
  unfold ProjectedNormal.expand ProjectedNormal.validationEnabled
  cases d.validateAttr with
  | none => rfl
  | some o => rfl

/-- C9: `safe_project` never mutates its input: in the heap model the tensor
at the caller's reference is unchanged after the call, the returned reference
is a fresh one, and it holds exactly the projection of the input. -/
theorem safe_project_no_mutation (tiny : ℝ) (heap : List (List ℝ)) (inRef : ℕ)
    (h : inRef < heap.length) :
    (safeProjectHeap tiny heap inRef).1[inRef]? = heap[inRef]?
    ∧ (safeProjectHeap tiny heap inRef).2 ≠ inRef
    ∧ (safeProjectHeap tiny heap inRef).1[(safeProjectHeap tiny heap inRef).2]?
        = some (safe_project tiny (heap.getD inRef [])) := by
  unfold safeProjectHeap safe_project
  refine ⟨?_, ?_, ?_⟩
  · rw [List.getElem?_set_ne (by omega)]
    exact List.getElem?_append_left h
  · intro hcontra
    have hlen : heap.length = inRef := hcontra
    omega
  · rw [List.getElem?_set_self (by simp)]

/-- Witness for C9 at the one-tensor heap `[[0, 0]]` with `tiny = 1`. -/
theorem safe_project_no_mutation_witness :
    0 < ([[0, 0]] : List (List ℝ)).length
    ∧ ((safeProjectHeap 1 [[0, 0]] 0).1[0]? = ([[0, 0]] : List (List ℝ))[0]?
      ∧ (safeProjectHeap 1 [[0, 0]] 0).2 ≠ 0
      ∧ (safeProjectHeap 1 [[0, 0]] 0).1[(safeProjectHeap 1 [[0, 0]] 0).2]?
          = some (safe_project 1 (([[0, 0]] : List (List ℝ)).getD 0 []))) :=
  ⟨by simp, safe_project_no_mutation 1 [[0, 0]] 0 (by simp)⟩

/-- C10: `log_prob` dispatches on the last dimension of the concentration,
not of the value: with validation disabled, a value whose trailing dimension
differs from the event shape is not rejected but handed to the implementation
registered for the concentration's dimension. -/
theorem log_prob_dispatch_on_concentration_dim (erf : ℝ → ℝ)
    (inSphere : List ℝ → Bool) (classDefault : Bool) (d : ProjectedNormal)
    (value : Tensor1) (f : List ℝ → List ℝ → ℝ)
    (hv : d.validationEnabled classDefault = false)
    (hlen : value.data.length ≠ d.concentration.length)
    (himpl : logProbImpls erf d.concentration.length = some f) :
    d.log_prob erf inSphere classDefault value = Except.ok (f d.concentration value.data) := by
  unfold ProjectedNormal.log_prob
  rw [if_neg (by simp [hv])]
  exact dispatch_of_some erf d value f himpl

/-- Witness for C10: a dimension-2 concentration with a dimension-3 value and
validation disabled dispatches to the dimension-2 implementation. -/
theorem log_prob_dispatch_on_concentration_dim_witness :
    (ProjectedNormal.construct [1, 0] none).validationEnabled false = false
    ∧ ([0, 0, 1] : List ℝ).length ≠ (ProjectedNormal.construct [1, 0] none).concentration.length
    ∧ logProbImpls (fun _ => 0)
        (ProjectedNormal.construct [1, 0] none).concentration.length
      = some (_log_prob_2 (fun _ => 0))
    ∧ (ProjectedNormal.construct [1, 0] none).log_prob (fun _ => 0) (fun _ => true) false
        ⟨[0, 0, 1], false⟩
      = Except.ok (_log_prob_2 (fun _ => 0)
          (ProjectedNormal.construct [1, 0] none).concentration [0, 0, 1]) :=
  ⟨rfl, by decide, rfl,
    log_prob_dispatch_on_concentration_dim (fun _ => 0) (fun _ => true) false
      (ProjectedNormal.construct [1, 0] none) ⟨[0, 0, 1], false⟩
      (_log_prob_2 (fun _ => 0)) rfl (by decide) rfl⟩
